import Mathlib

/-!
Shallow embedding of the chemical-process device model from `device.cpp`
(and its near duplicate `device_with_gtest.cpp`): streams carrying a
mass-flow scalar, a Mixer (N inputs, 1 output, output = sum of inputs
divided by the attached-output count) and a Reactor (1 input, 1 or 2
outputs, identity transfer or even split).

Streams are shared by reference between devices, so we model the heap of
streams explicitly: a `Store` maps stream identifiers to stream records,
and device operations that mutate stream fields are functions on stores.
C++ `double` mass flows are modelled as rationals (the arithmetic here is
sums and division by small integers). C++ `throw` of a string becomes
`Except String`; a throwing operation produces `.error msg` and, as in the
code, performs no mutation before the throw, so an erroneous call returns
no updated store or device.
-/

namespace LabDevice

/-- A chemical stream (`class Stream`): a mutable mass flow rate and a name. -/
structure Stream where
  mass_flow : ℚ
  name : String
deriving Repr, DecidableEq

/-- Stream identifiers: streams are shared by reference, so devices hold
identifiers into a shared store. -/
abbrev StreamId := Nat

/-- The heap of streams: a total map from identifiers to stream records. -/
abbrev Store := StreamId → LabDevice.Stream

/-- `Stream::setMassFlow` performed on the stream with identifier `i`. -/
def setMassFlow (σ : Store) (i : StreamId) (m : ℚ) : Store :=
  fun j => if j = i then { σ j with mass_flow := m } else σ j

/-- `const int MIXER_OUTPUTS = 1;` -/
def MIXER_OUTPUTS : Int := 1

/-- `class Mixer`: input and output stream references plus the capacity
field `_inputs_count` (an `int` in the source, hence `Int` here). The base
class fields `inputAmount`/`outputAmount` are never read through a `Mixer`
(the C++ class shadows `addInput`/`addOutput`), so they are omitted. -/
structure Mixer where
  inputs : List StreamId
  outputs : List StreamId
  inputs_count : Int
deriving Repr, DecidableEq

/-- `Mixer::Mixer(int inputs_count)`: empty collections, records the capacity. -/
def Mixer.make (inputs_count : Int) : Mixer :=
  { inputs := [], outputs := [], inputs_count := inputs_count }

/-- `Mixer::addInput`: throws "Too much inputs" when `inputs.size() == _inputs_count`,
otherwise appends. -/
def Mixer.addInput (d : Mixer) (s : StreamId) : Except String Mixer :=
  if (d.inputs.length : Int) = d.inputs_count then
    .error "Too much inputs"
  else
    .ok { d with inputs := d.inputs ++ [s] }

/-- `Mixer::addOutput`: throws "Too much outputs" when `outputs.size() == MIXER_OUTPUTS`,
otherwise appends. -/
def Mixer.addOutput (d : Mixer) (s : StreamId) : Except String Mixer :=
  if (d.outputs.length : Int) = MIXER_OUTPUTS then
    .error "Too much outputs"
  else
    .ok { d with outputs := d.outputs ++ [s] }

/-- `Mixer::updateOutputs`: sums the attached input flows, throws if no
output is attached, otherwise writes `sum / outputs.size()` to every
attached output. The sum is computed (side-effect free) before the check,
as in the source. -/
def Mixer.updateOutputs (d : Mixer) (σ : Store) : Except String Store :=
  let sum_mass_flow : ℚ := (d.inputs.map fun i => (σ i).mass_flow).sum
  if d.outputs.isEmpty then
    .error "Should set outputs before update"
  else
    let output_mass := sum_mass_flow / (d.outputs.length : ℚ)
    .ok (d.outputs.foldl (fun τ o => setMassFlow τ o output_mass) σ)

/-- `class Reactor`: input and output stream references, the mode flag, and
the base-class capacity fields set by the constructor. -/
structure Reactor where
  inputs : List StreamId
  outputs : List StreamId
  isDoubleOutput : Bool
  inputAmount : Int
  outputAmount : Int
deriving Repr, DecidableEq

/-- `Reactor::Reactor(bool isDoubleReactor)`: always 1 input, 2 outputs in
double mode and 1 otherwise. -/
def Reactor.make (isDoubleReactor : Bool) : Reactor :=
  { inputs := [], outputs := [],
    isDoubleOutput := isDoubleReactor,
    inputAmount := 1,
    outputAmount := if isDoubleReactor then 2 else 1 }

/-- `Device::addInput` (inherited by Reactor): appends while
`inputs.size() < inputAmount`, else throws "INPUT STREAM LIMIT!". -/
def Reactor.addInput (d : Reactor) (s : StreamId) : Except String Reactor :=
  if (d.inputs.length : Int) < d.inputAmount then
    .ok { d with inputs := d.inputs ++ [s] }
  else
    .error "INPUT STREAM LIMIT!"

/-- `Device::addOutput` (inherited by Reactor): appends while
`outputs.size() < outputAmount`, else throws "OUTPUT STREAM LIMIT!". -/
def Reactor.addOutput (d : Reactor) (s : StreamId) : Except String Reactor :=
  if (d.outputs.length : Int) < d.outputAmount then
    .ok { d with outputs := d.outputs ++ [s] }
  else
    .error "OUTPUT STREAM LIMIT!"

/-- `Reactor::updateOutputs`: checks the input is connected and the output
count matches `outputAmount`, then either splits the input flow evenly over
`outputs[0]` and `outputs[1]` (double mode) or transfers it to `outputs[0]`
(single mode). Vector indexing `v[k]` is rendered as `List.getD k 0`; the
checks guarantee the index is in bounds on every reachable state (see the
access-safety theorem). -/
def Reactor.updateOutputs (d : Reactor) (σ : Store) : Except String Store :=
  if d.inputs.isEmpty then
    .error "Input stream not connected to reactor"
  else if (d.outputs.length : Int) ≠ d.outputAmount then
    .error "Output streams not properly set for reactor"
  else
    let inputMass := (σ (d.inputs.getD 0 0)).mass_flow
    if d.isDoubleOutput then
      let outputMass := inputMass / 2
      let σ₁ := setMassFlow σ (d.outputs.getD 0 0) outputMass
      .ok (setMassFlow σ₁ (d.outputs.getD 1 0) outputMass)
    else
      .ok (setMassFlow σ (d.outputs.getD 0 0) inputMass)

/-- `Reactor::getIsDoubleOutput`: pure accessor of the mode flag. -/
def Reactor.getIsDoubleOutput (d : Reactor) : Bool :=
  d.isDoubleOutput

/-- The closed set of device variants behind the virtual `updateOutputs`
interface. -/
inductive PDevice where
  | mixer (m : Mixer)
  | reactor (r : Reactor)

/-- Input collection of a device variant. -/
def PDevice.inputs : PDevice → List StreamId
  | .mixer m => m.inputs
  | .reactor r => r.inputs

/-- Output collection of a device variant. -/
def PDevice.outputs : PDevice → List StreamId
  | .mixer m => m.outputs
  | .reactor r => r.outputs

/-- Virtual dispatch of `updateOutputs` over the two variants. -/
def PDevice.updateOutputs : PDevice → Store → Except String Store
  | .mixer m, σ => m.updateOutputs σ
  | .reactor r, σ => r.updateOutputs σ

/-- Mixer states reachable from `Mixer(n)` by successful `addInput` /
`addOutput` calls (`updateOutputs` does not touch the device's own fields,
only streams, so it contributes no step). -/
inductive MixerFrom (n : Int) : Mixer → Prop
  | start : MixerFrom n (Mixer.make n)
  | addIn {d d' : Mixer} {s : StreamId} :
      MixerFrom n d → d.addInput s = .ok d' → MixerFrom n d'
  | addOut {d d' : Mixer} {s : StreamId} :
      MixerFrom n d → d.addOutput s = .ok d' → MixerFrom n d'

/-- Reactor states reachable from `Reactor(b)` by successful `addInput` /
`addOutput` calls. -/
inductive ReactorFrom (b : Bool) : Reactor → Prop
  | start : ReactorFrom b (Reactor.make b)
  | addIn {d d' : Reactor} {s : StreamId} :
      ReactorFrom b d → d.addInput s = .ok d' → ReactorFrom b d'
  | addOut {d d' : Reactor} {s : StreamId} :
      ReactorFrom b d → d.addOutput s = .ok d' → ReactorFrom b d'

/-- A reactor that some constructor call can produce. -/
def ReactorReachable (d : Reactor) : Prop :=
  ∃ b, ReactorFrom b d

/-- A device variant in a constructible state. -/
def PDeviceReachable : PDevice → Prop
  | .mixer m => ∃ n, MixerFrom n m
  | .reactor r => ReactorReachable r

/-- A concrete store used to instantiate theorems: stream 0 carries flow 10,
stream 1 carries flow 5, every other stream carries 30. -/
def testStore : Store :=
  fun i => { mass_flow := if i = 0 then 10 else if i = 1 then 5 else 30,
             name := "s" ++ toString i }

/-! ### Helper lemmas about stream writes -/

theorem setMassFlow_self (σ : Store) (i : StreamId) (m : ℚ) :
    (setMassFlow σ i m i).mass_flow = m := by
  simp [setMassFlow]

theorem setMassFlow_other (σ : Store) {i j : StreamId} (m : ℚ) (h : j ≠ i) :
    setMassFlow σ i m j = σ j := by
  simp [setMassFlow, h]

theorem setMassFlow_name (σ : Store) (i : StreamId) (m : ℚ) (j : StreamId) :
    (setMassFlow σ i m j).name = (σ j).name := by
  by_cases h : j = i <;> simp [setMassFlow, h]

theorem foldl_set_not_mem (l : List StreamId) (σ : Store) (m : ℚ) {j : StreamId}
    (h : j ∉ l) :
    (l.foldl (fun τ x => setMassFlow τ x m) σ) j = σ j := by
  induction l generalizing σ with
  | nil => rfl
  | cons a t ih =>
    have ha : j ≠ a := fun hja => h (hja ▸ List.mem_cons_self a t)
    have ht : j ∉ t := fun hjt => h (List.mem_cons_of_mem a hjt)
    simp only [List.foldl_cons]
    rw [ih _ ht, setMassFlow_other σ m ha]

theorem foldl_set_mem (l : List StreamId) (σ : Store) (m : ℚ) {o : StreamId}
    (h : o ∈ l) :
    ((l.foldl (fun τ x => setMassFlow τ x m) σ) o).mass_flow = m := by
  induction l generalizing σ with
  | nil => cases h
  | cons a t ih =>
    simp only [List.foldl_cons]
    by_cases ht : o ∈ t
    · exact ih _ ht
    · have ha : o = a := by
        rcases List.mem_cons.mp h with h1 | h2
        · exact h1
        · exact absurd h2 ht
      rw [foldl_set_not_mem t _ m ht, ha, setMassFlow_self]

theorem foldl_set_name (l : List StreamId) (σ : Store) (m : ℚ) (j : StreamId) :
    ((l.foldl (fun τ x => setMassFlow τ x m) σ) j).name = (σ j).name := by
  induction l generalizing σ with
  | nil => rfl
  | cons a t ih =>
    simp only [List.foldl_cons]
    rw [ih, setMassFlow_name]

/-! ### Unfolding lemmas for `updateOutputs` -/

theorem Mixer.updateOutputs_ok_eq (d : Mixer) (σ : Store) (h : d.outputs ≠ []) :
    d.updateOutputs σ =
      .ok (d.outputs.foldl
        (fun τ o => setMassFlow τ o
          (((d.inputs.map fun i => (σ i).mass_flow).sum) / (d.outputs.length : ℚ))) σ) := by
  simp [Mixer.updateOutputs, List.isEmpty_iff, h]

theorem Mixer.updateOutputs_error_of_no_outputs (d : Mixer) (σ : Store)
    (h : d.outputs = []) :
    d.updateOutputs σ = .error "Should set outputs before update" := by
  simp [Mixer.updateOutputs, h]

theorem Reactor.updateOutputs_error_of_no_input (d : Reactor) (σ : Store)
    (h : d.inputs = []) :
    d.updateOutputs σ = .error "Input stream not connected to reactor" := by
  simp [Reactor.updateOutputs, h]

theorem Reactor.updateOutputs_error_of_bad_outputs (d : Reactor) (σ : Store)
    (hin : d.inputs ≠ []) (hout : (d.outputs.length : Int) ≠ d.outputAmount) :
    d.updateOutputs σ = .error "Output streams not properly set for reactor" := by
  simp [Reactor.updateOutputs, List.isEmpty_iff, hin, hout]

theorem Reactor.updateOutputs_ok_eq_single (d : Reactor) (σ : Store)
    (hin : d.inputs ≠ []) (hout : (d.outputs.length : Int) = d.outputAmount)
    (hd : d.isDoubleOutput = false) :
    d.updateOutputs σ =
      .ok (setMassFlow σ (d.outputs.getD 0 0) ((σ (d.inputs.getD 0 0)).mass_flow)) := by
  simp [Reactor.updateOutputs, List.isEmpty_iff, hin, hout, hd]

theorem Reactor.updateOutputs_ok_eq_double (d : Reactor) (σ : Store)
    (hin : d.inputs ≠ []) (hout : (d.outputs.length : Int) = d.outputAmount)
    (hd : d.isDoubleOutput = true) :
    d.updateOutputs σ =
      .ok (setMassFlow
            (setMassFlow σ (d.outputs.getD 0 0) ((σ (d.inputs.getD 0 0)).mass_flow / 2))
            (d.outputs.getD 1 0) ((σ (d.inputs.getD 0 0)).mass_flow / 2)) := by
  simp [Reactor.updateOutputs, List.isEmpty_iff, hin, hout, hd]

/-! ### Characterisations of successful `addInput` / `addOutput` calls -/

theorem Mixer.addInput_succeeds {d d' : Mixer} {s : StreamId}
    (h : d.addInput s = .ok d') :
    (d.inputs.length : Int) ≠ d.inputs_count ∧
      d' = { d with inputs := d.inputs ++ [s] } := by
  unfold Mixer.addInput at h
  split at h
  next hc => cases h
  next hc => exact ⟨hc, (Except.ok.inj h).symm⟩

theorem Mixer.addOutput_succeeds {d d' : Mixer} {s : StreamId}
    (h : d.addOutput s = .ok d') :
    (d.outputs.length : Int) ≠ MIXER_OUTPUTS ∧
      d' = { d with outputs := d.outputs ++ [s] } := by
  unfold Mixer.addOutput at h
  split at h
  next hc => cases h
  next hc => exact ⟨hc, (Except.ok.inj h).symm⟩

theorem Reactor.addInput_ok {d d' : Reactor} {s : StreamId}
    (h : d.addInput s = .ok d') :
    (d.inputs.length : Int) < d.inputAmount ∧
      d' = { d with inputs := d.inputs ++ [s] } := by
  unfold Reactor.addInput at h
  split at h
  next hc => exact ⟨hc, (Except.ok.inj h).symm⟩
  next hc => cases h

theorem Reactor.addOutput_ok {d d' : Reactor} {s : StreamId}
    (h : d.addOutput s = .ok d') :
    (d.outputs.length : Int) < d.outputAmount ∧
      d' = { d with outputs := d.outputs ++ [s] } := by
  unfold Reactor.addOutput at h
  split at h
  next hc => exact ⟨hc, (Except.ok.inj h).symm⟩
  next hc => cases h

/-! ### Invariants of reachable device states -/

theorem MixerFrom.inputs_count_eq {n : Int} {d : Mixer} (h : MixerFrom n d) :
    d.inputs_count = n := by
  induction h with
  | start => rfl
  | addIn _ hs ih =>
      obtain ⟨-, hd⟩ := Mixer.addInput_succeeds hs
      subst hd; simpa using ih
  | addOut _ hs ih =>
      obtain ⟨-, hd⟩ := Mixer.addOutput_succeeds hs
      subst hd; simpa using ih

theorem MixerFrom.inputs_bounded {n : Int} {d : Mixer} (h : MixerFrom n d)
    (hn : 0 ≤ n) : (d.inputs.length : Int) ≤ n := by
  induction h with
  | start => simpa [Mixer.make] using hn
  | addIn hprev hs ih =>
      obtain ⟨hc, hd⟩ := Mixer.addInput_succeeds hs
      rw [hprev.inputs_count_eq] at hc
      subst hd
      simp only [List.length_append, List.length_cons, List.length_nil]
      push_cast
      omega
  | addOut _ hs ih =>
      obtain ⟨-, hd⟩ := Mixer.addOutput_succeeds hs
      subst hd; simpa using ih

theorem MixerFrom.outputs_bounded {n : Int} {d : Mixer} (h : MixerFrom n d) :
    (d.outputs.length : Int) ≤ MIXER_OUTPUTS := by
  induction h with
  | start => simp [Mixer.make, MIXER_OUTPUTS]
  | addIn _ hs ih =>
      obtain ⟨-, hd⟩ := Mixer.addInput_succeeds hs
      subst hd; simpa using ih
  | addOut _ hs ih =>
      obtain ⟨hc, hd⟩ := Mixer.addOutput_succeeds hs
      subst hd
      have e : MIXER_OUTPUTS = 1 := rfl
      rw [e] at hc ih ⊢
      simp only [List.length_append, List.length_cons, List.length_nil]
      push_cast
      omega

theorem ReactorFrom.config {b : Bool} {d : Reactor} (h : ReactorFrom b d) :
    d.isDoubleOutput = b ∧ d.inputAmount = 1 ∧
      d.outputAmount = (if b then 2 else 1) := by
  induction h with
  | start => exact ⟨rfl, rfl, rfl⟩
  | addIn _ hs ih =>
      obtain ⟨-, hd⟩ := Reactor.addInput_ok hs
      subst hd; simpa using ih
  | addOut _ hs ih =>
      obtain ⟨-, hd⟩ := Reactor.addOutput_ok hs
      subst hd; simpa using ih

theorem ReactorFrom.inputs_le {b : Bool} {d : Reactor} (h : ReactorFrom b d) :
    (d.inputs.length : Int) ≤ d.inputAmount := by
  induction h with
  | start => simp [Reactor.make]
  | addIn _ hs ih =>
      obtain ⟨hc, hd⟩ := Reactor.addInput_ok hs
      subst hd
      simp only [List.length_append, List.length_cons, List.length_nil]
      push_cast
      omega
  | addOut _ hs ih =>
      obtain ⟨-, hd⟩ := Reactor.addOutput_ok hs
      subst hd; simpa using ih

theorem ReactorFrom.outputs_le {b : Bool} {d : Reactor} (h : ReactorFrom b d) :
    (d.outputs.length : Int) ≤ d.outputAmount := by
  induction h with
  | start => cases b <;> simp [Reactor.make]
  | addIn _ hs ih =>
      obtain ⟨-, hd⟩ := Reactor.addInput_ok hs
      subst hd; simpa using ih
  | addOut _ hs ih =>
      obtain ⟨hc, hd⟩ := Reactor.addOutput_ok hs
      subst hd
      simp only [List.length_append, List.length_cons, List.length_nil]
      push_cast
      omega

/-! ### Claim theorems -/

/-- C1: for every Mixer with at least one output attached, `updateOutputs`
assigns to every attached output the sum of the attached input mass-flows
divided by the number of attached outputs (the OUTPUT count, not the input
count); in particular with exactly one output attached the output mass-flow
equals the sum of the input mass-flows. -/
theorem mixer_updateOutputs_assigns_mean (d : Mixer) (σ : Store)
    (h : d.outputs ≠ []) :
    ∃ σ', d.updateOutputs σ = .ok σ' ∧
      (∀ o ∈ d.outputs,
        (σ' o).mass_flow =
          ((d.inputs.map fun i => (σ i).mass_flow).sum) / (d.outputs.length : ℚ)) ∧
      (d.outputs.length = 1 →
        ∀ o ∈ d.outputs,
          (σ' o).mass_flow = (d.inputs.map fun i => (σ i).mass_flow).sum) := by
  refine ⟨_, d.updateOutputs_ok_eq σ h, fun o ho => foldl_set_mem _ _ _ ho, ?_⟩
  intro h1 o ho
  rw [foldl_set_mem _ _ _ ho, h1]
  norm_num

/-- C1 witness: a Mixer with two inputs of flows 10 and 5 and one output
produces output flow 15. -/
theorem mixer_updateOutputs_assigns_mean_witness :
    ∃ σ', Mixer.updateOutputs ⟨[0, 1], [2], 2⟩ testStore = .ok σ' ∧
      (σ' 2).mass_flow = 15 := by
  obtain ⟨σ', h1, h2, -⟩ :=
    mixer_updateOutputs_assigns_mean ⟨[0, 1], [2], 2⟩ testStore (by simp)
  refine ⟨σ', h1, ?_⟩
  rw [h2 2 (by simp)]
  norm_num [testStore]

theorem double_write_reads (σ : Store) (a b : StreamId) (m : ℚ) :
    ((setMassFlow (setMassFlow σ a m) b m) a).mass_flow = m ∧
    ((setMassFlow (setMassFlow σ a m) b m) b).mass_flow = m := by
  constructor
  · by_cases h : a = b
    · subst h; exact setMassFlow_self _ _ _
    · rw [setMassFlow_other _ _ h]; exact setMassFlow_self _ _ _
  · exact setMassFlow_self _ _ _

/-- C2: a Reactor whose `updateOutputs` preconditions hold (one attached
input carrying flow v, attached output count equal to `outputAmount`)
transfers v to the single output in single-output mode, and writes v/2 to
both outputs in double-output mode, so the two output flows sum to v. -/
theorem reactor_updateOutputs_modes (d : Reactor) (σ : Store) (i : StreamId)
    (hreach : ReactorReachable d)
    (hin : d.inputs = [i])
    (hout : (d.outputs.length : Int) = d.outputAmount) :
    ∃ σ', d.updateOutputs σ = .ok σ' ∧
      ((d.isDoubleOutput = false →
         ∃ o, d.outputs = [o] ∧ (σ' o).mass_flow = (σ i).mass_flow) ∧
       (d.isDoubleOutput = true →
         ∃ o₁ o₂, d.outputs = [o₁, o₂] ∧
           (σ' o₁).mass_flow = (σ i).mass_flow / 2 ∧
           (σ' o₂).mass_flow = (σ i).mass_flow / 2 ∧
           (σ' o₁).mass_flow + (σ' o₂).mass_flow = (σ i).mass_flow)) := by
  obtain ⟨b, hb⟩ := hreach
  obtain ⟨hdb, -, hoa⟩ := hb.config
  have hne : d.inputs ≠ [] := by rw [hin]; simp
  have hgetin : d.inputs.getD 0 0 = i := by rw [hin]; rfl
  cases b with
  | false =>
      have h1 : d.outputs.length = 1 := by
        rw [hoa] at hout; simp at hout; exact_mod_cast hout
      obtain ⟨o, ho⟩ := List.length_eq_one.mp h1
      have hg0 : d.outputs.getD 0 0 = o := by rw [ho]; rfl
      have hupd := d.updateOutputs_ok_eq_single σ hne hout hdb
      rw [hgetin, hg0] at hupd
      refine ⟨_, hupd, fun _ => ⟨o, ho, setMassFlow_self _ _ _⟩, fun hc => ?_⟩
      rw [hdb] at hc; cases hc
  | true =>
      have h2 : d.outputs.length = 2 := by
        rw [hoa] at hout; simp at hout; exact_mod_cast hout
      obtain ⟨o₁, o₂, ho⟩ := List.length_eq_two.mp h2
      have hg0 : d.outputs.getD 0 0 = o₁ := by rw [ho]; rfl
      have hg1 : d.outputs.getD 1 0 = o₂ := by rw [ho]; rfl
      have hupd := d.updateOutputs_ok_eq_double σ hne hout hdb
      rw [hgetin, hg0, hg1] at hupd
      refine ⟨_, hupd, fun hc => ?_, fun _ => ?_⟩
      · rw [hdb] at hc; cases hc
      · obtain ⟨k1, k2⟩ := double_write_reads σ o₁ o₂ ((σ i).mass_flow / 2)
        exact ⟨o₁, o₂, ho, k1, k2, by rw [k1, k2, add_halves]⟩

/-- C2 witness: a reachable double-mode Reactor with input flow 10 splits
it into two outputs of 5 whose flows sum to the input flow. -/
theorem reactor_updateOutputs_modes_witness :
    ∃ σ', Reactor.updateOutputs ⟨[0], [1, 2], true, 1, 2⟩ testStore = .ok σ' ∧
      (σ' 1).mass_flow = 5 ∧ (σ' 2).mass_flow = 5 ∧
      (σ' 1).mass_flow + (σ' 2).mass_flow = (testStore 0).mass_flow := by
  have hr : ReactorReachable ⟨[0], [1, 2], true, 1, 2⟩ :=
    ⟨true, .addOut (.addOut (.addIn .start rfl) rfl) rfl⟩
  obtain ⟨σ', h1, -, h3⟩ :=
    reactor_updateOutputs_modes ⟨[0], [1, 2], true, 1, 2⟩ testStore 0 hr rfl rfl
  obtain ⟨o₁, o₂, ho, k1, k2, k3⟩ := h3 rfl
  obtain ⟨e1, e2⟩ : o₁ = 1 ∧ o₂ = 2 := by
    simpa using ho.symm
  subst e1; subst e2
  refine ⟨σ', h1, ?_, ?_, ?_⟩
  · rw [k1]; norm_num [testStore]
  · rw [k2]; norm_num [testStore]
  · rw [k3]

/-- C3: `updateOutputs` fails exactly when the required wiring is absent
(Mixer: no outputs attached; reachable Reactor: attached-input count other
than one, or attached-output count different from `outputAmount`). In the
embedding a failing call returns only `.error msg`: faithfully to the
source, where every output assignment sits after the precondition checks,
no stream and no device collection is modified by a failing call. -/
theorem updateOutputs_error_iff :
    (∀ (m : Mixer) (σ : Store),
        (∃ e, m.updateOutputs σ = .error e) ↔ m.outputs = []) ∧
    (∀ (r : Reactor) (σ : Store), ReactorReachable r →
        ((∃ e, r.updateOutputs σ = .error e) ↔
          (r.inputs.length ≠ 1 ∨ (r.outputs.length : Int) ≠ r.outputAmount))) := by
  constructor
  · intro m σ
    constructor
    · rintro ⟨e, he⟩
      by_contra h
      rw [m.updateOutputs_ok_eq σ h] at he
      cases he
    · intro h
      exact ⟨_, m.updateOutputs_error_of_no_outputs σ h⟩
  · rintro r σ ⟨b, hb⟩
    obtain ⟨hdb, hia, hoa⟩ := hb.config
    have hle : (r.inputs.length : Int) ≤ 1 := hia ▸ hb.inputs_le
    constructor
    · rintro ⟨e, he⟩
      by_contra hcon
      push_neg at hcon
      obtain ⟨h1, h2⟩ := hcon
      have hin : r.inputs ≠ [] := by
        intro hnil; rw [hnil] at h1; simp at h1
      cases hbd : r.isDoubleOutput with
      | false => rw [r.updateOutputs_ok_eq_single σ hin h2 hbd] at he; cases he
      | true => rw [r.updateOutputs_ok_eq_double σ hin h2 hbd] at he; cases he
    · intro h
      rcases h with h1 | h2
      · have hnil : r.inputs = [] := by
          have hlen : r.inputs.length ≤ 1 := by exact_mod_cast hle
          have h0 : r.inputs.length = 0 := by omega
          exact List.length_eq_zero.mp h0
        exact ⟨_, r.updateOutputs_error_of_no_input σ hnil⟩
      · by_cases hin : r.inputs = []
        · exact ⟨_, r.updateOutputs_error_of_no_input σ hin⟩
        · exact ⟨_, r.updateOutputs_error_of_bad_outputs σ hin h2⟩

/-- C3 witness: a freshly constructed single-mode Reactor (no wiring) fails
exactly as characterised. -/
theorem updateOutputs_error_iff_witness :
    (∃ e, (Reactor.make false).updateOutputs testStore = .error e) ↔
      ((Reactor.make false).inputs.length ≠ 1 ∨
        ((Reactor.make false).outputs.length : Int) ≠ (Reactor.make false).outputAmount) :=
  updateOutputs_error_iff.2 (Reactor.make false) testStore ⟨false, .start⟩

/-- C6: a Mixer with at least one output attached and zero inputs attached
updates without error and sets every attached output's mass-flow to 0. -/
theorem mixer_updateOutputs_zero_inputs (d : Mixer) (σ : Store)
    (hin : d.inputs = []) (hout : d.outputs ≠ []) :
    ∃ σ', d.updateOutputs σ = .ok σ' ∧ ∀ o ∈ d.outputs, (σ' o).mass_flow = 0 := by
  refine ⟨_, d.updateOutputs_ok_eq σ hout, fun o ho => ?_⟩
  rw [foldl_set_mem _ _ _ ho, hin]
  simp

/-- C6 witness: a Mixer with no inputs and output stream 2 attached
succeeds and writes flow 0. -/
theorem mixer_updateOutputs_zero_inputs_witness :
    ∃ σ', Mixer.updateOutputs ⟨[], [2], 2⟩ testStore = .ok σ' ∧
      ∀ o ∈ (⟨[], [2], 2⟩ : Mixer).outputs, (σ' o).mass_flow = 0 :=
  mixer_updateOutputs_zero_inputs ⟨[], [2], 2⟩ testStore rfl (by simp)

/-- C4: `addInput` called at input capacity fails with the error message
identifying the input side, and `addOutput` at output capacity fails with
the message identifying the output side, for both device kinds. A failing
call produces only the error value: as in the source, where the throw
precedes any `push_back`, the collection is unchanged. -/
theorem add_at_capacity_fails :
    (∀ (d : Mixer) (s : StreamId), (d.inputs.length : Int) = d.inputs_count →
        d.addInput s = .error "Too much inputs") ∧
    (∀ (d : Mixer) (s : StreamId), (d.outputs.length : Int) = MIXER_OUTPUTS →
        d.addOutput s = .error "Too much outputs") ∧
    (∀ (d : Reactor) (s : StreamId), (d.inputs.length : Int) = d.inputAmount →
        d.addInput s = .error "INPUT STREAM LIMIT!") ∧
    (∀ (d : Reactor) (s : StreamId), (d.outputs.length : Int) = d.outputAmount →
        d.addOutput s = .error "OUTPUT STREAM LIMIT!") := by
  refine ⟨fun d s h => ?_, fun d s h => ?_, fun d s h => ?_, fun d s h => ?_⟩
  · simp [Mixer.addInput, h]
  · simp [Mixer.addOutput, h]
  · simp [Reactor.addInput, h]
  · simp [Reactor.addOutput, h]

/-- C4 witness: a Mixer of capacity 2 holding two inputs rejects a third,
and a single-mode Reactor holding one output rejects a second. -/
theorem add_at_capacity_fails_witness :
    Mixer.addInput ⟨[0, 1], [2], 2⟩ 5 = .error "Too much inputs" ∧
    Reactor.addOutput ⟨[0], [1], false, 1, 1⟩ 5 = .error "OUTPUT STREAM LIMIT!" :=
  ⟨add_at_capacity_fails.1 ⟨[0, 1], [2], 2⟩ 5 (by norm_num),
   add_at_capacity_fails.2.2.2 ⟨[0], [1], false, 1, 1⟩ 5 (by norm_num)⟩

/-- C5 counterexample: a Mixer constructed with the capacity argument -1
(an `int` in the source) never hits the equality guard in `addInput`, so an
input is accepted and the claimed invariant
`len(inputs) ≤ inputAmount` is violated in a reachable state. -/
theorem capacity_invariant_cex :
    Mixer.addInput (Mixer.make (-1)) 0 = .ok ⟨[0], [], -1⟩ ∧
    MixerFrom (-1) (⟨[0], [], -1⟩ : Mixer) ∧
    ¬ (((⟨[0], [], -1⟩ : Mixer).inputs.length : Int) ≤
        (⟨[0], [], -1⟩ : Mixer).inputs_count) :=
  ⟨rfl, .addIn .start rfl, by norm_num⟩

/-- C5 (amended): for every Mixer constructed with a nonnegative capacity
and for every Reactor, every state reachable through construction,
`addInput` and `addOutput` (and `updateOutputs`, which never touches the
collections) satisfies `len(inputs) ≤ inputAmount` and
`len(outputs) ≤ outputAmount`; an add at capacity is rejected with an
error, never silently truncated. -/
theorem capacity_invariant :
    (∀ (n : Int) (d : Mixer), MixerFrom n d → 0 ≤ n →
        (d.inputs.length : Int) ≤ d.inputs_count ∧
        (d.outputs.length : Int) ≤ MIXER_OUTPUTS) ∧
    (∀ (b : Bool) (d : Reactor), ReactorFrom b d →
        (d.inputs.length : Int) ≤ d.inputAmount ∧
        (d.outputs.length : Int) ≤ d.outputAmount) ∧
    (∀ (d : Mixer) (s : StreamId), (d.inputs.length : Int) = d.inputs_count →
        ∃ e, d.addInput s = .error e) ∧
    (∀ (d : Reactor) (s : StreamId), (d.outputs.length : Int) = d.outputAmount →
        ∃ e, d.addOutput s = .error e) := by
  refine ⟨fun n d h hn => ?_, fun b d h => ⟨h.inputs_le, h.outputs_le⟩,
          fun d s h => ⟨"Too much inputs", by simp [Mixer.addInput, h]⟩,
          fun d s h => ⟨"OUTPUT STREAM LIMIT!", by simp [Reactor.addOutput, h]⟩⟩
  refine ⟨?_, h.outputs_bounded⟩
  rw [h.inputs_count_eq]
  exact h.inputs_bounded hn

/-- C5 witness: a Mixer wired with two inputs and one output from capacity
2, and a double-mode Reactor wired fully, satisfy the invariant. -/
theorem capacity_invariant_witness :
    (((⟨[0, 1], [2], 2⟩ : Mixer).inputs.length : Int) ≤
        (⟨[0, 1], [2], 2⟩ : Mixer).inputs_count ∧
     ((⟨[0, 1], [2], 2⟩ : Mixer).outputs.length : Int) ≤ MIXER_OUTPUTS) ∧
    (((⟨[0], [1, 2], true, 1, 2⟩ : Reactor).inputs.length : Int) ≤
        (⟨[0], [1, 2], true, 1, 2⟩ : Reactor).inputAmount ∧
     ((⟨[0], [1, 2], true, 1, 2⟩ : Reactor).outputs.length : Int) ≤
        (⟨[0], [1, 2], true, 1, 2⟩ : Reactor).outputAmount) :=
  ⟨capacity_invariant.1 2 ⟨[0, 1], [2], 2⟩
      (.addOut (.addIn (.addIn .start rfl) rfl) rfl) (by norm_num),
   capacity_invariant.2.1 true ⟨[0], [1, 2], true, 1, 2⟩
      (.addOut (.addOut (.addIn .start rfl) rfl) rfl)⟩

/-- C7: on any device whose `updateOutputs` succeeds, a second call whose
input mass-flows are unchanged (as the claim assumes) succeeds as well and
writes exactly the same output mass-flows: the computation is recomputed
deterministically from the current input values. -/
theorem updateOutputs_idempotent (d : PDevice) (σ σ' : Store)
    (h1 : d.updateOutputs σ = .ok σ')
    (h2 : ∀ i ∈ d.inputs, (σ' i).mass_flow = (σ i).mass_flow) :
    ∃ σ'', d.updateOutputs σ' = .ok σ'' ∧
      ∀ o ∈ d.outputs, (σ'' o).mass_flow = (σ' o).mass_flow := by
  cases d with
  | mixer m =>
      simp only [PDevice.updateOutputs, PDevice.inputs, PDevice.outputs] at *
      have hne : m.outputs ≠ [] := by
        intro hnil
        rw [m.updateOutputs_error_of_no_outputs σ hnil] at h1
        cases h1
      have hsum : (m.inputs.map fun i => (σ' i).mass_flow).sum
          = (m.inputs.map fun i => (σ i).mass_flow).sum := by
        congr 1
        exact List.map_congr_left h2
      rw [m.updateOutputs_ok_eq σ hne] at h1
      have hσ' := (Except.ok.inj h1).symm
      refine ⟨_, m.updateOutputs_ok_eq σ' hne, fun o ho => ?_⟩
      rw [foldl_set_mem _ _ _ ho, hsum, hσ', foldl_set_mem _ _ _ ho]
  | reactor r =>
      simp only [PDevice.updateOutputs, PDevice.inputs, PDevice.outputs] at *
      have hin : r.inputs ≠ [] := by
        intro hnil
        rw [r.updateOutputs_error_of_no_input σ hnil] at h1
        cases h1
      have hout : (r.outputs.length : Int) = r.outputAmount := by
        by_contra hbad
        rw [r.updateOutputs_error_of_bad_outputs σ hin hbad] at h1
        cases h1
      have hi_mem : r.inputs.getD 0 0 ∈ r.inputs := by
        cases hi : r.inputs with
        | nil => exact absurd hi hin
        | cons a t => simp [hi]
      have hv : (σ' (r.inputs.getD 0 0)).mass_flow
          = (σ (r.inputs.getD 0 0)).mass_flow := h2 _ hi_mem
      cases hbd : r.isDoubleOutput with
      | false =>
          rw [r.updateOutputs_ok_eq_single σ hin hout hbd] at h1
          have hσ' := (Except.ok.inj h1).symm
          refine ⟨_, r.updateOutputs_ok_eq_single σ' hin hout hbd, fun o ho => ?_⟩
          by_cases he : o = r.outputs.getD 0 0
          · subst he
            rw [setMassFlow_self, hv, hσ', setMassFlow_self]
          · rw [setMassFlow_other _ _ he]
      | true =>
          rw [r.updateOutputs_ok_eq_double σ hin hout hbd] at h1
          have hσ' := (Except.ok.inj h1).symm
          have hm : (σ' (r.inputs.getD 0 0)).mass_flow / 2
              = (σ (r.inputs.getD 0 0)).mass_flow / 2 := by rw [hv]
          refine ⟨_, r.updateOutputs_ok_eq_double σ' hin hout hbd, fun o ho => ?_⟩
          by_cases he1 : o = r.outputs.getD 1 0
          · subst he1
            rw [setMassFlow_self, hm, hσ', setMassFlow_self]
          · rw [setMassFlow_other _ _ he1]
            by_cases he0 : o = r.outputs.getD 0 0
            · subst he0
              rw [setMassFlow_self, hm, hσ', setMassFlow_other _ _ he1, setMassFlow_self]
            · rw [setMassFlow_other _ _ he0]

/-- C7 witness: a Mixer with no inputs and one output updates twice with
identical results. -/
theorem updateOutputs_idempotent_witness :
    ∃ σ' σ'', PDevice.updateOutputs (.mixer ⟨[], [2], 2⟩) testStore = .ok σ' ∧
      PDevice.updateOutputs (.mixer ⟨[], [2], 2⟩) σ' = .ok σ'' ∧
      ∀ o ∈ (PDevice.mixer ⟨[], [2], 2⟩).outputs,
        (σ'' o).mass_flow = (σ' o).mass_flow := by
  obtain ⟨σ', h1⟩ : ∃ τ, PDevice.updateOutputs (.mixer ⟨[], [2], 2⟩) testStore = .ok τ :=
    ⟨_, Mixer.updateOutputs_ok_eq ⟨[], [2], 2⟩ testStore (by simp)⟩
  obtain ⟨σ'', hu, hsame⟩ :=
    updateOutputs_idempotent (.mixer ⟨[], [2], 2⟩) testStore σ' h1
      (by simp [PDevice.inputs])
  exact ⟨σ', σ'', h1, hu, hsame⟩

/-- C8: `getIsDoubleOutput` returns exactly the constructor argument, is a
pure accessor, and is unchanged by any sequence of successful `addInput` /
`addOutput` calls (`updateOutputs` writes only to streams and failing calls
return only an error, so neither can change the flag). -/
theorem getIsDoubleOutput_stable (b : Bool) (d : Reactor)
    (h : ReactorFrom b d) : d.getIsDoubleOutput = b :=
  h.config.1

/-- C8 witness: the accessor reads back the constructor argument on a fresh
Reactor and on a fully wired one. -/
theorem getIsDoubleOutput_stable_witness :
    (Reactor.make true).getIsDoubleOutput = true ∧
    (⟨[0], [1, 2], true, 1, 2⟩ : Reactor).getIsDoubleOutput = true :=
  ⟨getIsDoubleOutput_stable true _ .start,
   getIsDoubleOutput_stable true _ (.addOut (.addOut (.addIn .start rfl) rfl) rfl)⟩

/-- C9: on a constructible device whose inputs and outputs share no stream,
a successful `updateOutputs` touches only the attached output streams:
every stream outside the outputs (in particular every input stream) is
untouched, and no stream's name changes. The device's own collections and
capacity fields are untouched by construction of the embedding, faithful
to the source, which only calls `setMassFlow` on output streams. -/
theorem updateOutputs_frame (d : PDevice) (σ σ' : Store)
    (hreach : PDeviceReachable d)
    (hdisj : ∀ x ∈ d.inputs, x ∉ d.outputs)
    (h : d.updateOutputs σ = .ok σ') :
    (∀ j, j ∉ d.outputs → σ' j = σ j) ∧
    (∀ i ∈ d.inputs, σ' i = σ i) ∧
    (∀ j, (σ' j).name = (σ j).name) := by
  cases d with
  | mixer m =>
      simp only [PDevice.updateOutputs, PDevice.inputs, PDevice.outputs] at *
      have hne : m.outputs ≠ [] := by
        intro hnil
        rw [m.updateOutputs_error_of_no_outputs σ hnil] at h
        cases h
      rw [m.updateOutputs_ok_eq σ hne] at h
      have hσ' := (Except.ok.inj h).symm
      subst hσ'
      exact ⟨fun j hj => foldl_set_not_mem _ _ _ hj,
             fun i hi => foldl_set_not_mem _ _ _ (hdisj i hi),
             fun j => foldl_set_name _ _ _ _⟩
  | reactor r =>
      simp only [PDevice.updateOutputs, PDevice.inputs, PDevice.outputs] at *
      obtain ⟨b, hb⟩ := hreach
      obtain ⟨hdb, -, hoa⟩ := hb.config
      have hin : r.inputs ≠ [] := by
        intro hnil
        rw [r.updateOutputs_error_of_no_input σ hnil] at h
        cases h
      have hout : (r.outputs.length : Int) = r.outputAmount := by
        by_contra hbad
        rw [r.updateOutputs_error_of_bad_outputs σ hin hbad] at h
        cases h
      cases b with
      | false =>
          have h1len : r.outputs.length = 1 := by
            rw [hoa] at hout; simp at hout; exact_mod_cast hout
          obtain ⟨o, ho⟩ := List.length_eq_one.mp h1len
          have hg0 : r.outputs.getD 0 0 = o := by rw [ho]; rfl
          rw [r.updateOutputs_ok_eq_single σ hin hout hdb, hg0] at h
          have hσ' := (Except.ok.inj h).symm
          subst hσ'
          refine ⟨fun j hj => ?_, fun i hi => ?_, fun j => setMassFlow_name _ _ _ _⟩
          · have hjo : j ≠ o := by rw [ho] at hj; simpa using hj
            exact setMassFlow_other _ _ hjo
          · have hio : i ≠ o := by
              have := hdisj i hi
              rw [ho] at this; simpa using this
            exact setMassFlow_other _ _ hio
      | true =>
          have h2len : r.outputs.length = 2 := by
            rw [hoa] at hout; simp at hout; exact_mod_cast hout
          obtain ⟨o₁, o₂, ho⟩ := List.length_eq_two.mp h2len
          have hg0 : r.outputs.getD 0 0 = o₁ := by rw [ho]; rfl
          have hg1 : r.outputs.getD 1 0 = o₂ := by rw [ho]; rfl
          rw [r.updateOutputs_ok_eq_double σ hin hout hdb, hg0, hg1] at h
          have hσ' := (Except.ok.inj h).symm
          subst hσ'
          refine ⟨fun j hj => ?_, fun i hi => ?_, fun j => by
            rw [setMassFlow_name, setMassFlow_name]⟩
          · have hj12 : j ≠ o₁ ∧ j ≠ o₂ := by
              rw [ho] at hj; simpa using hj
            rw [setMassFlow_other _ _ hj12.2, setMassFlow_other _ _ hj12.1]
          · have hi12 : i ≠ o₁ ∧ i ≠ o₂ := by
              have := hdisj i hi
              rw [ho] at this; simpa using this
            rw [setMassFlow_other _ _ hi12.2, setMassFlow_other _ _ hi12.1]

/-- C9 witness: a fully wired Mixer with disjoint inputs and outputs keeps
input flows and all names unchanged. -/
theorem updateOutputs_frame_witness :
    ∃ σ', PDevice.updateOutputs (.mixer ⟨[0, 1], [2], 2⟩) testStore = .ok σ' ∧
      ((∀ j, j ∉ (PDevice.mixer ⟨[0, 1], [2], 2⟩).outputs → σ' j = testStore j) ∧
       (∀ i ∈ (PDevice.mixer ⟨[0, 1], [2], 2⟩).inputs, σ' i = testStore i) ∧
       (∀ j, (σ' j).name = (testStore j).name)) := by
  obtain ⟨σ', h⟩ : ∃ τ, PDevice.updateOutputs (.mixer ⟨[0, 1], [2], 2⟩) testStore = .ok τ :=
    ⟨_, Mixer.updateOutputs_ok_eq ⟨[0, 1], [2], 2⟩ testStore (by simp)⟩
  refine ⟨σ', h, updateOutputs_frame _ _ _ ?_ (by decide) h⟩
  exact ⟨2, .addOut (.addIn (.addIn .start rfl) rfl) rfl⟩

/-- C10: the container accesses and the division inside `updateOutputs`
are guarded: whenever a Mixer's update succeeds (reaching the division and
the output writes) the output count is nonzero, and whenever a constructible
Reactor's update succeeds (reaching `inputs[0]`, `outputs[0]` and, in
double mode, `outputs[1]`) the accessed indices are strictly within the
collection lengths. -/
theorem updateOutputs_access_safe :
    (∀ (m : Mixer) (σ σ' : Store), m.updateOutputs σ = .ok σ' →
        m.outputs.length ≠ 0 ∧ ((m.outputs.length : ℚ) ≠ 0)) ∧
    (∀ (b : Bool) (r : Reactor) (σ σ' : Store), ReactorFrom b r →
        r.updateOutputs σ = .ok σ' →
        0 < r.inputs.length ∧ 0 < r.outputs.length ∧
          (r.isDoubleOutput = true → 1 < r.outputs.length)) := by
  constructor
  · intro m σ σ' h
    have hne : m.outputs ≠ [] := by
      intro hnil
      rw [m.updateOutputs_error_of_no_outputs σ hnil] at h
      cases h
    have hlen : m.outputs.length ≠ 0 := by
      intro h0
      exact hne (List.length_eq_zero.mp h0)
    exact ⟨hlen, by exact_mod_cast hlen⟩
  · intro b r σ σ' hb h
    obtain ⟨hdb, -, hoa⟩ := hb.config
    have hin : r.inputs ≠ [] := by
      intro hnil
      rw [r.updateOutputs_error_of_no_input σ hnil] at h
      cases h
    have hout : (r.outputs.length : Int) = r.outputAmount := by
      by_contra hbad
      rw [r.updateOutputs_error_of_bad_outputs σ hin hbad] at h
      cases h
    refine ⟨List.length_pos.mpr hin, ?_, ?_⟩
    · rw [hoa] at hout
      cases b <;> simp at hout <;> omega
    · intro hdd
      rw [hdb] at hdd
      subst hdd
      rw [hoa] at hout
      simp at hout
      omega

/-- C10 witness: a wired Mixer and a wired double-mode Reactor whose
updates succeed have nonzero output count, resp. in-bounds indices 0
and 1. -/
theorem updateOutputs_access_safe_witness :
    ((⟨[0, 1], [2], 2⟩ : Mixer).outputs.length ≠ 0) ∧
    (0 < (⟨[0], [1, 2], true, 1, 2⟩ : Reactor).inputs.length ∧
     1 < (⟨[0], [1, 2], true, 1, 2⟩ : Reactor).outputs.length) := by
  have hm := Mixer.updateOutputs_ok_eq ⟨[0, 1], [2], 2⟩ testStore (by simp)
  have hr := Reactor.updateOutputs_ok_eq_double ⟨[0], [1, 2], true, 1, 2⟩ testStore
    (by simp) (by norm_num) rfl
  obtain ⟨hm1, -⟩ := updateOutputs_access_safe.1 _ _ _ hm
  obtain ⟨hr1, -, hr3⟩ := updateOutputs_access_safe.2 true _ _ _
    (.addOut (.addOut (.addIn .start rfl) rfl) rfl) hr
  exact ⟨hm1, hr1, hr3 rfl⟩

end LabDevice
